import Mathlib

/-!
Verification of the IO-Store package codec
(`src/UtocEmulator/fileemu-utoc-stream-emulator/src/io_package.rs`).

The Rust module is shallowly embedded: machine integers become `Nat` with
explicit `% 2^w` where overflow or casts matter, the seekable byte streams
(`Read`/`Write` + `Seek`) become explicit state records carrying a total
byte memory `Nat → Nat` and a cursor, and fallible operations return
`Option`.  A Rust `panic!` (or an `unwrap` of an `Err`) is modelled as
`none`.
-/

/-! ## Byte-stream infrastructure

`byteorder`'s `ByteOrder` type parameter becomes an explicit `Endian`
argument.  A writable stream (`Write + Seek`) is a total byte memory
together with a cursor; a readable stream (`Read + Seek`) is the same
data read-only.  Bytes are stored reduced `% 256`.
-/

inductive Endian where
  | little
  | big
deriving DecidableEq

/-- Little-endian byte list (length `w`) of the value `v`, i.e. `v`'s base-256
digits, least significant first. -/
def leBytes : Nat → Nat → List Nat
  | 0, _ => []
  | w + 1, v => v % 256 :: leBytes w (v / 256)

/-- Order a little-endian byte list according to the chosen byte order. -/
def orient : Endian → List Nat → List Nat
  | .little, l => l
  | .big, l => l.reverse

/-- Serialized bytes of a `w`-byte unsigned integer in byte order `e`. -/
def uintBytes (e : Endian) (w v : Nat) : List Nat := orient e (leBytes w v)

/-- Store the byte list `l` at consecutive positions starting at `p`. -/
def writeList (mem : Nat → Nat) (p : Nat) : List Nat → (Nat → Nat)
  | [] => mem
  | b :: bs => writeList (fun i => if i = p then b % 256 else mem i) (p + 1) bs

/-- The `w` bytes stored at positions `p, p+1, …, p+w-1`. -/
def bytesAt (mem : Nat → Nat) : Nat → Nat → List Nat
  | _, 0 => []
  | p, w + 1 => mem p :: bytesAt mem (p + 1) w

/-- Value of a little-endian byte list (each byte reduced `% 256`). -/
def natOfLE : List Nat → Nat
  | [] => 0
  | b :: bs => b % 256 + 256 * natOfLE bs

/-- Read the `w`-byte unsigned integer stored at position `p` in byte order `e`. -/
def readUIntAt (e : Endian) (mem : Nat → Nat) (p w : Nat) : Nat :=
  natOfLE (orient e (bytesAt mem p w))

/-- A `Write + Seek` stream: total byte memory plus the write cursor. -/
structure WState where
  mem : Nat → Nat
  pos : Nat

/-- `write_uNN::<E>` : store the `w` bytes of `v` at the cursor and advance it. -/
def writeUInt (e : Endian) (w v : Nat) (s : WState) : WState :=
  ⟨writeList s.mem s.pos (uintBytes e w v), s.pos + w⟩

/-- A `Read + Seek` stream: total byte memory plus the read cursor. -/
structure RState where
  mem : Nat → Nat
  pos : Nat

/-- `read_uNN::<E>` : read `w` bytes at the cursor and advance it. -/
def readUInt (e : Endian) (w : Nat) (r : RState) : Nat × RState :=
  (readUIntAt e r.mem r.pos w, ⟨r.mem, r.pos + w⟩)

/-- `seek(SeekFrom::Current(d))` for a non-negative distance `d`. -/
def seekCur (r : RState) (d : Nat) : RState := ⟨r.mem, r.pos + d⟩

/-- `seek(SeekFrom::Start(p))`. -/
def seekStart (r : RState) (p : Nat) : RState := ⟨r.mem, p⟩

/-! ## CityHash64

`IoStoreObjectIndex::generate_hash` hashes with the external `cityhasher`
crate (not part of this repository's sources).  Modelled from the spec:
"hash that byte sequence with a 64-bit non-cryptographic hash (CityHash64
semantics)" — the definitions below follow the public CityHash v1.1
64-bit algorithm that the crate implements, with every 64-bit machine
operation made explicit via `% 2^64`.  No claim depends on individual
hash values, only on the hash being a function of the byte sequence.
-/

namespace CityHash

def k0 : Nat := 0xc3a5c85c97cb3127
def k1 : Nat := 0xb492b66fbe98f273
def k2 : Nat := 0x9ae16a3b2f90404f
def kMul : Nat := 0x9ddfea08eb382d69

def mask64 (v : Nat) : Nat := v % 2 ^ 64
def add64 (a b : Nat) : Nat := (a + b) % 2 ^ 64
def mul64 (a b : Nat) : Nat := (a * b) % 2 ^ 64

/-- Right rotation of a 64-bit value. -/
def rot64 (v s : Nat) : Nat :=
  if s = 0 then v else ((v >>> s) ||| (v <<< (64 - s))) % 2 ^ 64

def shiftMix (v : Nat) : Nat := v ^^^ (v >>> 47)

/-- Byte-swap of a 64-bit value. -/
def bswap64 (v : Nat) : Nat :=
  v % 256 * 2 ^ 56 + v / 2 ^ 8 % 256 * 2 ^ 48 + v / 2 ^ 16 % 256 * 2 ^ 40 +
    v / 2 ^ 24 % 256 * 2 ^ 32 + v / 2 ^ 32 % 256 * 2 ^ 24 + v / 2 ^ 40 % 256 * 2 ^ 16 +
    v / 2 ^ 48 % 256 * 2 ^ 8 + v / 2 ^ 56 % 256

def byteAt (bs : List Nat) (i : Nat) : Nat := bs.getD i 0 % 256

/-- Little-endian fetch of `w` bytes at index `i` of the byte sequence. -/
def fetchLE (bs : List Nat) : Nat → Nat → Nat
  | _, 0 => 0
  | i, w + 1 => byteAt bs i + 256 * fetchLE bs (i + 1) w

def fetch64 (bs : List Nat) (i : Nat) : Nat := fetchLE bs i 8

def fetch32 (bs : List Nat) (i : Nat) : Nat := fetchLE bs i 4

def hashLen16mul (u v mul : Nat) : Nat :=
  let a := mul64 (u ^^^ v) mul
  let a := a ^^^ (a >>> 47)
  let b := mul64 (v ^^^ a) mul
  let b := b ^^^ (b >>> 47)
  mul64 b mul

def hashLen16 (u v : Nat) : Nat := hashLen16mul u v kMul

def hashLen0to16 (bs : List Nat) : Nat :=
  let len := bs.length
  if 8 ≤ len then
    let mul := add64 k2 (2 * len)
    let a := add64 (fetch64 bs 0) k2
    let b := fetch64 bs (len - 8)
    let c := add64 (mul64 (rot64 b 37) mul) a
    let d := mul64 (add64 (rot64 a 25) b) mul
    hashLen16mul c d mul
  else if 4 ≤ len then
    let mul := add64 k2 (2 * len)
    let a := fetch32 bs 0
    hashLen16mul (add64 len (mask64 (a <<< 3))) (fetch32 bs (len - 4)) mul
  else if 0 < len then
    let a := byteAt bs 0
    let b := byteAt bs (len / 2)
    let c := byteAt bs (len - 1)
    let y := a + (b <<< 8)
    let z := len + (c <<< 2)
    mul64 (shiftMix (mul64 y k2 ^^^ mul64 z k0)) k2
  else k2

def hashLen17to32 (bs : List Nat) : Nat :=
  let len := bs.length
  let mul := add64 k2 (2 * len)
  let a := mul64 (fetch64 bs 0) k1
  let b := fetch64 bs 8
  let c := mul64 (fetch64 bs (len - 8)) mul
  let d := mul64 (fetch64 bs (len - 16)) k2
  hashLen16mul (add64 (add64 (rot64 (add64 a b) 43) (rot64 c 30)) d)
    (add64 (add64 a (rot64 (add64 b k2) 18)) c) mul

def hashLen33to64 (bs : List Nat) : Nat :=
  let len := bs.length
  let mul := add64 k2 (2 * len)
  let a := mul64 (fetch64 bs 0) k2
  let b := fetch64 bs 8
  let c := fetch64 bs (len - 24)
  let d := fetch64 bs (len - 32)
  let e := mul64 (fetch64 bs 16) k2
  let f := mul64 (fetch64 bs 24) 9
  let g := fetch64 bs (len - 8)
  let h := mul64 (fetch64 bs (len - 16)) mul
  let u := add64 (rot64 (add64 a g) 43) (mul64 (add64 (rot64 b 30) c) 9)
  let v := add64 (add64 (add64 a g ^^^ d) f) 1
  let w := add64 (bswap64 (mul64 (add64 u v) mul)) h
  let x := add64 (rot64 (add64 e f) 42) c
  let y := mul64 (add64 (bswap64 (mul64 (add64 v w) mul)) g) mul
  let z := add64 (add64 e f) c
  let a2 := add64 (bswap64 (add64 (mul64 (add64 x z) mul) y)) b
  let b2 := mul64 (shiftMix (add64 (add64 (mul64 (add64 z a2) mul) d) h)) mul
  add64 b2 x

def weakHashLen32WithSeeds6 (w x y z a b : Nat) : Nat × Nat :=
  let a := add64 a w
  let b := rot64 (add64 (add64 b a) z) 21
  let c := a
  let a := add64 a x
  let a := add64 a y
  let b := add64 b (rot64 a 44)
  (add64 a z, add64 b c)

def weakHashLen32WithSeeds (bs : List Nat) (i a b : Nat) : Nat × Nat :=
  weakHashLen32WithSeeds6 (fetch64 bs i) (fetch64 bs (i + 8)) (fetch64 bs (i + 16))
    (fetch64 bs (i + 24)) a b

/-- Main loop of CityHash64 for inputs longer than 64 bytes; one call per
64-byte block, state `(x, y, z, v, w)`. -/
def cityLoop (bs : List Nat) :
    Nat → Nat → Nat × Nat × Nat × (Nat × Nat) × (Nat × Nat) →
      Nat × Nat × Nat × (Nat × Nat) × (Nat × Nat)
  | 0, _, st => st
  | n + 1, s, (x, y, z, v, w) =>
    let x := mul64 (rot64 (add64 (add64 (add64 x y) v.1) (fetch64 bs (s + 8))) 37) k1
    let y := mul64 (rot64 (add64 (add64 y v.2) (fetch64 bs (s + 48))) 42) k1
    let x := x ^^^ w.2
    let y := add64 y (add64 v.1 (fetch64 bs (s + 40)))
    let z := mul64 (rot64 (add64 z w.1) 33) k1
    let v2 := weakHashLen32WithSeeds bs s (mul64 v.2 k1) (add64 x w.1)
    let w2 := weakHashLen32WithSeeds bs (s + 32) (add64 z w.2) (add64 y (fetch64 bs (s + 16)))
    cityLoop bs n (s + 64) (z, y, x, v2, w2)

def cityHash64 (bs : List Nat) : Nat :=
  let len := bs.length
  if len ≤ 32 then
    if len ≤ 16 then hashLen0to16 bs else hashLen17to32 bs
  else if len ≤ 64 then hashLen33to64 bs
  else
    let x := fetch64 bs (len - 40)
    let y := add64 (fetch64 bs (len - 16)) (fetch64 bs (len - 56))
    let z := hashLen16 (add64 (fetch64 bs (len - 48)) len) (fetch64 bs (len - 24))
    let v := weakHashLen32WithSeeds bs (len - 64) len z
    let w := weakHashLen32WithSeeds bs (len - 32) (add64 y k1) x
    let x := add64 (mul64 x k1) (fetch64 bs 0)
    let (x, y, z, v, w) := cityLoop bs ((len - 1) / 64) 0 (x, y, z, v, w)
    hashLen16 (add64 (add64 (hashLen16 v.1 w.1) (mul64 (shiftMix y) k1)) z)
      (add64 (hashLen16 v.2 w.2) x)

end CityHash

/-! ## `IoStoreObjectIndex` — the 64-bit tagged object reference -/

/-- UTF-16 code units of a Unicode scalar value (surrogate pair when the
scalar is outside the basic plane), as produced by `encode_utf16`. -/
def utf16Units (c : Nat) : List Nat :=
  if c < 0x10000 then [c]
  else [0xD800 + (c - 0x10000) / 0x400, 0xDC00 + (c - 0x10000) % 0x400]

/-- Byte sequence hashed by `generate_hash`: the string's UTF-16 code units
laid out as little-endian byte pairs, no terminator (the source builds it
by reinterpreting the `Vec<u16>`'s memory on the little-endian target). -/
def utf16leBytes (s : String) : List Nat :=
  ((s.data.map Char.toNat).flatMap utf16Units).flatMap fun u => [u % 256, u / 256 % 256]

/-- Per-character lowercase normalization applied before hashing.  Lean's
`Char.toLower` maps the ASCII range; Rust's `str::to_lowercase` applies the
full Unicode mapping, which agrees with it on the ASCII `/Script/...` and
`/Game/...` paths this codec hashes. -/
def lowerStr (s : String) : String := s.map Char.toLower

inductive IoStoreObjectIndex where
  | Export (i : Nat)
  | ScriptImport (v : String)
  | PackageImport (v : String)
  | Empty
deriving DecidableEq

namespace IoStoreObjectIndex

/-- `IoStoreObjectIndex::generate_hash`: lowercase, encode as UTF-16 bytes,
CityHash64, keep the low 62 bits (`hash &= !(3 << 62)`), then put the
object type into the top 2 bits (`hash |= obj_type << 62`). -/
def generate_hash (imp : String) (obj_type : Nat) : Nat :=
  let to_hash := lowerStr imp
  let hash := CityHash.cityHash64 (utf16leBytes to_hash)
  let hash := hash &&& (2 ^ 62 - 1)
  hash ||| (obj_type <<< 62)

/-- The 64-bit value written by `IoStoreObjectIndex::to_buffer`
(`Export` stores its `u64` index directly; `Empty` stores `u64::MAX`). -/
def to_buffer : IoStoreObjectIndex → Nat
  | .Export i => i
  | .ScriptImport v => generate_hash v 1
  | .PackageImport v => generate_hash v 2
  | .Empty => 2 ^ 64 - 1

/-- `IoStoreObjectIndex::from_buffer` after the `u64` has been read:
`obj_type = raw_value & (3 << 62)` (the tag mask is *not* shifted down)
is matched against the literals `0`, `1`, `2`, `3`; the fall-through arm
is `panic!`, modelled as `none`. -/
def from_buffer_raw (raw : Nat) : Option IoStoreObjectIndex :=
  let obj_type := raw &&& (3 <<< 62)
  if obj_type = 0 then some (.Export 0)
  else if obj_type = 1 then some (.ScriptImport "")
  else if obj_type = 2 then some (.PackageImport "")
  else if obj_type = 3 then some .Empty
  else none

/-- `IoStoreObjectIndex::from_buffer`: read a `u64` from the stream and
dispatch on its (unshifted) tag bits. -/
def from_buffer (e : Endian) (r : RState) : Option IoStoreObjectIndex × RState :=
  let (raw, r) := readUInt e 8 r
  (from_buffer_raw raw, r)

end IoStoreObjectIndex

/-! ## Summary layout decoders -/

/-- `PackageSummaryExports` — the three offsets every summary decoder
extracts (`export_offset`, `export_bundle_offset`, `graph_offset`). -/
structure PackageSummaryExports where
  export_offset : Nat
  export_bundle_offset : Nat
  graph_offset : Nat
deriving DecidableEq

/-- `IO_PACKAGE_FEXPORTMAP_SERIALIZED_SIZE` — fixed serialized size of one
`FExportMapEntry`. -/
def IO_PACKAGE_FEXPORTMAP_SERIALIZED_SIZE : Nat := 0x48

/-- `CONTAINER_HEADER_PACKAGE_SERIALIZED_SIZE` — fixed size of one
container-header store entry. -/
def CONTAINER_HEADER_PACKAGE_SERIALIZED_SIZE : Nat := 0x20

namespace PackageSummaryExports

/-- `PackageSummaryExports::get_export_count`:
`(export_bundle_offset - export_offset) as u64 / 0x48`.  The subtraction is
on `u32` operands; it is modelled with the two's-complement wrap of release
builds (`(a + 2^32 - b) % 2^32`) — a debug build would abort when
`export_offset > export_bundle_offset`, and no claim exercises that range. -/
def get_export_count (s : PackageSummaryExports) : Nat :=
  (s.export_bundle_offset + 2 ^ 32 - s.export_offset) % 2 ^ 32 /
    IO_PACKAGE_FEXPORTMAP_SERIALIZED_SIZE

/-- `PackageSummaryExports::get_export_bundle_count` (the unused stub). -/
def get_export_bundle_count (_ : PackageSummaryExports) : Nat := 0

end PackageSummaryExports

namespace PackageSummary1

/-- `PackageSummary1::to_package_summary` (UE 4.25 layout): skip `0xc`
bytes, then read the three `u32` offsets in the caller's byte order. -/
def to_package_summary (e : Endian) (r : RState) : PackageSummaryExports × RState :=
  let r := seekCur r 0xc
  let (export_offset, r) := readUInt e 4 r
  let (export_bundle_offset, r) := readUInt e 4 r
  let (graph_offset, r) := readUInt e 4 r
  (⟨export_offset, export_bundle_offset, graph_offset⟩, r)

end PackageSummary1

namespace PackageSummary2

/-- `PackageSummary2::to_package_summary` (UE 4.25+/4.26/4.27 layout):
skip `0x2c` bytes, then read the three `u32` offsets. -/
def to_package_summary (e : Endian) (r : RState) : PackageSummaryExports × RState :=
  let r := seekCur r 0x2c
  let (export_offset, r) := readUInt e 4 r
  let (export_bundle_offset, r) := readUInt e 4 r
  let (graph_offset, r) := readUInt e 4 r
  (⟨export_offset, export_bundle_offset, graph_offset⟩, r)

end PackageSummary2

namespace ZenPackageSummaryType1

/-- `ZenPackageSummaryType1::to_package_summary` (UE 5.0–5.2 layout):
skip `0x20` bytes, then read the three `u32` offsets. -/
def to_package_summary (e : Endian) (r : RState) : PackageSummaryExports × RState :=
  let r := seekCur r 0x20
  let (export_offset, r) := readUInt e 4 r
  let (export_bundle_offset, r) := readUInt e 4 r
  let (graph_offset, r) := readUInt e 4 r
  (⟨export_offset, export_bundle_offset, graph_offset⟩, r)

end ZenPackageSummaryType1

/-- The summary layout variants that implement `PackageIoSummaryDeserialize`
in the source (`PackageSummary1`, `PackageSummary2`, `ZenPackageSummaryType1`). -/
inductive SummaryVariant where
  | ps1
  | ps2
  | zen1
deriving DecidableEq

/-- Dispatch of `PackageIoSummaryDeserialize::to_package_summary` over the
implemented variants. -/
def summaryDecode : SummaryVariant → Endian → RState → PackageSummaryExports × RState
  | .ps1 => PackageSummary1.to_package_summary
  | .ps2 => PackageSummary2.to_package_summary
  | .zen1 => ZenPackageSummaryType1.to_package_summary

/-- All four summary layout variants of the source, including
`ZenPackageSummaryType2` (UE 5.3), which declares the struct but has *no*
`PackageIoSummaryDeserialize` implementation. -/
inductive SummaryVariantAll where
  | ps1
  | ps2
  | zen1
  | zen2
deriving DecidableEq

/-- Decoding over all declared layout variants.  `ZenPackageSummaryType2`
has no `to_package_summary` in the source (the `impl` is absent and the
source comments that its dependency data "has something different going
on"), so any attempt to decode it is rejected (in Rust, already at compile
time): modelled as `none`.  The implemented variants always produce a
summary. -/
def summaryDecodeAny : SummaryVariantAll → Endian → RState →
    Option (PackageSummaryExports × RState)
  | .ps1, e, r => some (PackageSummary1.to_package_summary e r)
  | .ps2, e, r => some (PackageSummary2.to_package_summary e r)
  | .zen1, e, r => some (ZenPackageSummaryType1.to_package_summary e r)
  | .zen2, _, _ => none

/-! ## Dependency graph decoder -/

/-- `FGraphExternalArc` — a `(from, to)` pair of `u32` bundle indices. -/
structure FGraphExternalArc where
  from_export_bundle_index : Nat
  to_export_bundle_index : Nat
deriving DecidableEq

namespace FGraphExternalArc

/-- `FGraphExternalArc::from_buffer`: two consecutive `u32` reads. -/
def from_buffer (e : Endian) (r : RState) : FGraphExternalArc × RState :=
  let (a, r) := readUInt e 4 r
  let (b, r) := readUInt e 4 r
  (⟨a, b⟩, r)

end FGraphExternalArc

/-- `FGraphPackage` — one imported-package record of the dependency graph. -/
structure FGraphPackage where
  imported_package_id : Nat
  external_arcs : List FGraphExternalArc
deriving DecidableEq

/-- Read `n` consecutive `FGraphExternalArc`s. -/
def readArcs (e : Endian) : Nat → RState → List FGraphExternalArc × RState
  | 0, r => ([], r)
  | n + 1, r =>
    let (a, r) := FGraphExternalArc.from_buffer e r
    let (rest, r) := readArcs e n r
    (a :: rest, r)

namespace FGraphPackage

/-- `FGraphPackage::from_buffer`: `u64` package hash, `u32` arc count, then
that many arcs. -/
def from_buffer (e : Endian) (r : RState) : FGraphPackage × RState :=
  let (imported_package_id, r) := readUInt e 8 r
  let (external_arc_count, r) := readUInt e 4 r
  let (external_arcs, r) := readArcs e external_arc_count r
  (⟨imported_package_id, external_arcs⟩, r)

end FGraphPackage

/-- Read `n` consecutive `FGraphPackage`s. -/
def readGraphPackages (e : Endian) : Nat → RState → List FGraphPackage × RState
  | 0, r => ([], r)
  | n + 1, r =>
    let (g, r) := FGraphPackage.from_buffer e r
    let (rest, r) := readGraphPackages e n r
    (g :: rest, r)

namespace FGraphPackage

/-- `FGraphPackage::list_from_buffer`: `u32` imported-packages count, then
that many records. -/
def list_from_buffer (e : Endian) (r : RState) : List FGraphPackage × RState :=
  let (imported_packages_count, r) := readUInt e 4 r
  readGraphPackages e imported_packages_count r

end FGraphPackage

/-! ## Export bundle decoder -/

/-- `ExportBundleCommandType` — the closed command set. -/
inductive ExportBundleCommandType where
  | Create
  | Serialize
  | Count
deriving DecidableEq

/-- `TryFrom<u32> for ExportBundleCommandType`: `0`, `1`, `2` decode; any
other value is a decode error. -/
def cmdOfNat : Nat → Option ExportBundleCommandType
  | 0 => some .Create
  | 1 => some .Serialize
  | 2 => some .Count
  | _ => none

/-- `ExportBundleEntry` — `(local_export_index : u32, command_type)`. -/
structure ExportBundleEntry where
  local_export_index : Nat
  command_type : ExportBundleCommandType
deriving DecidableEq

/-- Read `n` export bundle entries; an out-of-range command word aborts the
decode (`try_into()?`). -/
def readBundleEntries (e : Endian) : Nat → RState → Option (List ExportBundleEntry × RState)
  | 0, r => some ([], r)
  | n + 1, r =>
    let (local_export_index, r) := readUInt e 4 r
    let (cw, r) := readUInt e 4 r
    match cmdOfNat cw with
    | none => none
    | some command_type =>
      match readBundleEntries e n r with
      | none => none
      | some (rest, r) => some (⟨local_export_index, command_type⟩ :: rest, r)

namespace ExportBundleHeader4

/-- `ExportBundleHeader4::from_buffer` (UE 4.25–4.27): skip the `u32`
`FirstEntryIndex`, read the `u32` `entry_count`, then that many entries. -/
def from_buffer (e : Endian) (r : RState) : Option (List ExportBundleEntry × RState) :=
  let (_, r) := readUInt e 4 r
  let (entry_count, r) := readUInt e 4 r
  readBundleEntries e entry_count r

/-- `ExportBundleHeader4::get_export_bundle_count`: running maximum of
`local_export_index + 1` over the entries, starting from `0`.  The `+ 1` is
a `u32` addition, modelled with the release-build wrap `% 2^32`. -/
def get_export_bundle_count (entries : List ExportBundleEntry) : Nat :=
  entries.foldl
    (fun count i =>
      let export_count_maybe := (i.local_export_index + 1) % 2 ^ 32
      if export_count_maybe > count then export_count_maybe else count)
    0

end ExportBundleHeader4

/-! ## `ContainerHeaderPackage` — the container directory entry -/

/-- `ContainerHeaderPackage` — one export bundle's entry in the container
header. -/
structure ContainerHeaderPackage where
  hash : Nat
  export_bundle_size : Nat
  export_count : Nat
  export_bundle_count : Nat
  load_order : Nat
  import_ids : List Nat
deriving DecidableEq

namespace ContainerHeaderPackage

/-- Field ranges imposed by the Rust field types (`u64`/`u32`). -/
def WF (p : ContainerHeaderPackage) : Prop :=
  p.export_bundle_size < 2 ^ 64 ∧ p.export_count < 2 ^ 32 ∧ p.load_order < 2 ^ 32 ∧
    p.import_ids.length < 2 ^ 32 ∧ ∀ h ∈ p.import_ids, h < 2 ^ 64

instance (p : ContainerHeaderPackage) : Decidable p.WF := by
  unfold WF; infer_instance

/-- `ContainerHeaderPackage::from_package_summary` (the full construction
path).  Generic parameters are made explicit: the summary variant stands
for `TSummary`, and the source fixes `type Endian = NativeEndian` for the
export-bundle and graph reads (`native` below) while the summary decoder
receives the caller's `TByteOrder` (`tByteOrder` below).  The only
implemented `TExportBundle` is `ExportBundleHeader4`.  The two `unwrap`s of
fallible decodes become `none`. -/
def from_package_summary (sv : SummaryVariant) (tByteOrder native : Endian)
    (r : RState) (hash size : Nat) : Option ContainerHeaderPackage :=
  let (package_summary, r) := summaryDecode sv tByteOrder r
  let export_count := package_summary.get_export_count % 2 ^ 32
  let r := seekStart r package_summary.export_bundle_offset
  match ExportBundleHeader4.from_buffer native r with
  | none => none
  | some (export_bundles, r) =>
    let export_bundle_count := ExportBundleHeader4.get_export_bundle_count export_bundles
    let r := seekStart r package_summary.graph_offset
    let (graph_packages, _) := FGraphPackage.list_from_buffer native r
    some
      { hash
        export_bundle_size := size
        export_count
        export_bundle_count
        load_order := 0
        import_ids := graph_packages.map (·.imported_package_id) }

/-- Modelled from the spec: "all offsets/integers in a single consistent
byte order chosen by configuration" — the full construction path as the
spec describes it, with every read (summary offsets, export bundle header
and entries, dependency graph) performed in the one caller-specified byte
order. -/
def from_package_summary_consistent (sv : SummaryVariant) (e : Endian)
    (r : RState) (hash size : Nat) : Option ContainerHeaderPackage :=
  let (package_summary, r) := summaryDecode sv e r
  let export_count := package_summary.get_export_count % 2 ^ 32
  let r := seekStart r package_summary.export_bundle_offset
  match ExportBundleHeader4.from_buffer e r with
  | none => none
  | some (export_bundles, r) =>
    let export_bundle_count := ExportBundleHeader4.get_export_bundle_count export_bundles
    let r := seekStart r package_summary.graph_offset
    let (graph_packages, _) := FGraphPackage.list_from_buffer e r
    some
      { hash
        export_bundle_size := size
        export_count
        export_bundle_count
        load_order := 0
        import_ids := graph_packages.map (·.imported_package_id) }

/-- `ContainerHeaderPackage::from_header_package` (the shallow construction
path): read the three offsets at `0x2c`, derive the export count, read the
serialized bundle entry count at `export_bundle_offset + 4`, subtract, then
collect the graph hash list.  Both `u32` subtractions are modelled with the
release-build wrap. -/
def from_header_package (e : Endian) (r : RState) (hash size : Nat) :
    ContainerHeaderPackage :=
  let r := seekStart r 0x2c
  let (export_offset, r) := readUInt e 4 r
  let (export_bundle_offset, r) := readUInt e 4 r
  let (graph_offset, r) := readUInt e 4 r
  let export_count :=
    (export_bundle_offset + 2 ^ 32 - export_offset) % 2 ^ 32 /
      IO_PACKAGE_FEXPORTMAP_SERIALIZED_SIZE
  let r := seekStart r (export_bundle_offset + 4)
  let (export_bundle_count_serialized, r) := readUInt e 4 r
  let export_bundle_count := (export_bundle_count_serialized + 2 ^ 32 - export_count) % 2 ^ 32
  let r := seekStart r graph_offset
  let (imported_package_count, r) := readUInt e 4 r
  let (graph_packages, _) := readGraphPackages e imported_package_count r
  { hash
    export_bundle_size := size
    export_count
    export_bundle_count
    load_order := 0
    import_ids := graph_packages.map (·.imported_package_id) }

/-- Write the `u64` hashes of the import list at consecutive positions. -/
def writeImports (e : Endian) : List Nat → WState → WState
  | [], s => s
  | h :: t, s => writeImports e t (writeUInt e 8 h s)

/-- `ContainerHeaderPackage::to_buffer_store_entry`: the two-region store
entry serializer.  The fixed `0x20`-byte record is written at the cursor;
`relative_offset` is computed before the `0x18` field from the running
variable-region cursor (`(base_offset + curr_offset - stream_position) as
u32`, modelled with truncated `Nat` subtraction and the `% 2^32` cast —
the calling discipline keeps the variable region past the fixed records,
where all three subtraction semantics agree); a non-empty import list is
then written at the variable region via seek, the cursor is restored, and
the running offset is advanced by `8 * import_count`.  Returns the final
stream and the new running offset. -/
def to_buffer_store_entry (e : Endian) (p : ContainerHeaderPackage)
    (s : WState) (base_offset curr_offset : Nat) : WState × Nat :=
  let s := writeUInt e 8 p.export_bundle_size s
  let s := writeUInt e 4 p.export_count s
  let s := writeUInt e 4 1 s
  let s := writeUInt e 4 p.load_order s
  let s := writeUInt e 4 0 s
  let relative_offset : Option Nat :=
    if p.import_ids.length > 0 then some ((base_offset + curr_offset - s.pos) % 2 ^ 32)
    else none
  let s := writeUInt e 4 p.import_ids.length s
  let s := writeUInt e 4 (match relative_offset with | some n => n | none => 0) s
  match relative_offset with
  | some rel =>
    let return_ptr := s.pos
    let s : WState := ⟨s.mem, s.pos + rel - 8⟩
    let s := writeImports e p.import_ids s
    let s : WState := ⟨s.mem, return_ptr⟩
    (s, curr_offset + 8 * p.import_ids.length)
  | none => (s, curr_offset)

end ContainerHeaderPackage

/-- Read `n` consecutive `u64` values stored at position `p`. -/
def readU64ListAt (e : Endian) (mem : Nat → Nat) : Nat → Nat → List Nat
  | _, 0 => []
  | p, n + 1 => readUIntAt e mem p 8 :: readU64ListAt e mem (p + 8) n

/-! ## Byte-level lemmas -/

theorem leBytes_length (w v : Nat) : (leBytes w v).length = w := by
  induction w generalizing v with
  | zero => rfl
  | succ w ih => simp [leBytes, ih]

theorem orient_length (e : Endian) (l : List Nat) : (orient e l).length = l.length := by
  cases e <;> simp [orient]

theorem writeList_append (mem : Nat → Nat) (p : Nat) (l1 l2 : List Nat) :
    writeList mem p (l1 ++ l2) = writeList (writeList mem p l1) (p + l1.length) l2 := by
  induction l1 generalizing mem p with
  | nil => simp [writeList]
  | cons b t ih =>
    simp only [List.cons_append, writeList, List.length_cons, List.append_eq]
    rw [ih]
    have h : p + 1 + t.length = p + (t.length + 1) := by omega
    rw [h]

theorem writeList_out (mem : Nat → Nat) (p : Nat) (l : List Nat) (i : Nat)
    (h : i < p ∨ p + l.length ≤ i) : writeList mem p l i = mem i := by
  induction l generalizing mem p with
  | nil => rfl
  | cons b t ih =>
    simp only [List.length_cons] at h
    simp only [writeList]
    rw [ih _ _ (by omega)]
    exact if_neg (by omega)

theorem bytesAt_congr (m1 m2 : Nat → Nat) (p w : Nat)
    (h : ∀ i, p ≤ i → i < p + w → m1 i = m2 i) : bytesAt m1 p w = bytesAt m2 p w := by
  induction w generalizing p with
  | zero => rfl
  | succ w ih =>
    simp only [bytesAt]
    rw [h p (by omega) (by omega), ih (p + 1) (fun i h1 h2 => h i (by omega) (by omega))]

theorem bytesAt_writeList (mem : Nat → Nat) (p : Nat) (l : List Nat) :
    bytesAt (writeList mem p l) p l.length = l.map (· % 256) := by
  induction l generalizing mem p with
  | nil => rfl
  | cons b t ih =>
    simp only [List.length_cons, List.map_cons, bytesAt, writeList]
    rw [writeList_out _ _ _ _ (Or.inl (by omega)), if_pos rfl, ih]

theorem natOfLE_map_mod (l : List Nat) : natOfLE (l.map (· % 256)) = natOfLE l := by
  induction l with
  | nil => rfl
  | cons b t ih => simp [natOfLE, ih, Nat.mod_mod_of_dvd]

theorem natOfLE_leBytes (w v : Nat) : natOfLE (leBytes w v) = v % 256 ^ w := by
  induction w generalizing v with
  | zero => simp [leBytes, natOfLE, Nat.mod_one]
  | succ w ih =>
    simp only [leBytes, natOfLE, ih]
    rw [pow_succ', Nat.mod_mul, Nat.mod_mod_of_dvd _ (dvd_refl 256)]

theorem readList_writeList (e : Endian) (mem : Nat → Nat) (p : Nat) (l : List Nat) :
    natOfLE (orient e (bytesAt (writeList mem p (orient e l)) p l.length)) = natOfLE l := by
  have h1 : l.length = (orient e l).length := (orient_length e l).symm
  rw [h1, bytesAt_writeList]
  cases e with
  | little => simp [orient, natOfLE_map_mod]
  | big =>
    simp only [orient, ← List.map_reverse, List.reverse_reverse]
    exact natOfLE_map_mod l

theorem writeUInt_pos (e : Endian) (w v : Nat) (s : WState) :
    (writeUInt e w v s).pos = s.pos + w := rfl

theorem writeUInt_mem_out (e : Endian) (w v : Nat) (s : WState) (i : Nat)
    (h : i < s.pos ∨ s.pos + w ≤ i) : (writeUInt e w v s).mem i = s.mem i := by
  unfold writeUInt uintBytes
  exact writeList_out _ _ _ _ (by rw [orient_length, leBytes_length]; exact h)

theorem readUIntAt_writeUInt (e : Endian) (w v : Nat) (s : WState) :
    readUIntAt e (writeUInt e w v s).mem s.pos w = v % 256 ^ w := by
  unfold readUIntAt writeUInt uintBytes
  have h := readList_writeList e s.mem s.pos (leBytes w v)
  rw [leBytes_length] at h
  rw [h, natOfLE_leBytes]

theorem readUIntAt_congr (e : Endian) (m1 m2 : Nat → Nat) (p w : Nat)
    (h : ∀ i, p ≤ i → i < p + w → m1 i = m2 i) :
    readUIntAt e m1 p w = readUIntAt e m2 p w := by
  unfold readUIntAt
  rw [bytesAt_congr m1 m2 p w h]

/-! ## Tag-bit lemmas for the 64-bit object reference -/

theorem lor_shiftLeft_hi (a t : Nat) (h : a < 2 ^ 62) : (a ||| t <<< 62) >>> 62 = t := by
  apply Nat.eq_of_testBit_eq
  intro i
  have ha : a.testBit (62 + i) = false :=
    Nat.testBit_lt_two_pow (lt_of_lt_of_le h (Nat.pow_le_pow_right (by omega) (by omega)))
  simp [Nat.testBit_shiftRight, Nat.testBit_or, Nat.testBit_shiftLeft, ha,
    Nat.add_sub_cancel_left, Nat.le_add_right]

theorem lor_shiftLeft_lo (a t : Nat) (h : a < 2 ^ 62) :
    (a ||| t <<< 62) &&& (2 ^ 62 - 1) = a := by
  apply Nat.eq_of_testBit_eq
  intro i
  simp only [Nat.testBit_and, Nat.testBit_or, Nat.testBit_shiftLeft,
    Nat.testBit_two_pow_sub_one]
  by_cases hi : i < 62
  · simp [hi, Nat.not_le.mpr hi]
  · have ha : a.testBit i = false :=
      Nat.testBit_lt_two_pow (lt_of_lt_of_le h (Nat.pow_le_pow_right (by omega) (by omega)))
    simp [hi, ha]

theorem and_tag_mask_mod (raw : Nat) : (raw &&& (3 <<< 62)) % 2 ^ 62 = 0 := by
  apply Nat.eq_of_testBit_eq
  intro i
  simp only [Nat.testBit_mod_two_pow, Nat.testBit_and, Nat.testBit_shiftLeft, Nat.zero_testBit]
  by_cases hi : i < 62
  · simp [Nat.not_le.mpr hi]
  · simp [hi]

/-! ## Lemmas about the variable-region import writes -/

theorem writeImports_pos (e : Endian) (l : List Nat) (s : WState) :
    (ContainerHeaderPackage.writeImports e l s).pos = s.pos + 8 * l.length := by
  induction l generalizing s with
  | nil => simp [ContainerHeaderPackage.writeImports]
  | cons h t ih =>
    simp only [ContainerHeaderPackage.writeImports, List.length_cons, ih, writeUInt_pos]
    omega

theorem writeImports_mem_out (e : Endian) (l : List Nat) (s : WState) (i : Nat)
    (h : i < s.pos ∨ s.pos + 8 * l.length ≤ i) :
    (ContainerHeaderPackage.writeImports e l s).mem i = s.mem i := by
  induction l generalizing s with
  | nil => rfl
  | cons b t ih =>
    simp only [List.length_cons] at h
    simp only [ContainerHeaderPackage.writeImports]
    rw [ih _ (by simp only [writeUInt_pos]; omega)]
    exact writeUInt_mem_out _ _ _ _ _ (by omega)

theorem readU64ListAt_writeImports (e : Endian) (l : List Nat) (s : WState)
    (hl : ∀ h ∈ l, h < 2 ^ 64) :
    readU64ListAt e (ContainerHeaderPackage.writeImports e l s).mem s.pos l.length = l := by
  induction l generalizing s with
  | nil => rfl
  | cons b t ih =>
    simp only [List.length_cons, readU64ListAt, ContainerHeaderPackage.writeImports]
    have hhead :
        readUIntAt e (ContainerHeaderPackage.writeImports e t (writeUInt e 8 b s)).mem s.pos 8 =
          b := by
      rw [readUIntAt_congr e _ (writeUInt e 8 b s).mem s.pos 8
          (fun i h1 h2 => writeImports_mem_out e t _ i (Or.inl (by simp [writeUInt_pos]; omega)))]
      rw [readUIntAt_writeUInt]
      have : (256 : Nat) ^ 8 = 2 ^ 64 := by norm_num
      rw [this, Nat.mod_eq_of_lt (hl b (by simp))]
    have htail := ih (writeUInt e 8 b s) (fun x hx => hl x (by simp [hx]))
    rw [writeUInt_pos] at htail
    rw [hhead, htail]

theorem writeUInt_mem_lt (e : Endian) (w v : Nat) (s : WState) (i : Nat) (h : i < s.pos) :
    (writeUInt e w v s).mem i = s.mem i :=
  writeUInt_mem_out e w v s i (Or.inl h)

theorem readUIntAt_writeUInt_at (e : Endian) (w v : Nat) (s : WState) (q : Nat)
    (hq : q = s.pos) : readUIntAt e (writeUInt e w v s).mem q w = v % 256 ^ w := by
  subst hq
  exact readUIntAt_writeUInt e w v s

/-- The seven sequential writes of the fixed `0x20`-byte store-entry record,
with the value of the `0x1c` relative-offset field abstracted (`relv`).
Proof-side normal form for `to_buffer_store_entry`. -/
def writeFixed (e : Endian) (p : ContainerHeaderPackage) (relv : Nat) (s : WState) : WState :=
  writeUInt e 4 relv (writeUInt e 4 p.import_ids.length (writeUInt e 4 0
    (writeUInt e 4 p.load_order (writeUInt e 4 1 (writeUInt e 4 p.export_count
      (writeUInt e 8 p.export_bundle_size s))))))

theorem store_entry_eq_empty (e : Endian) (p : ContainerHeaderPackage) (mem : Nat → Nat)
    (pos base curr : Nat) (hn : p.import_ids = []) :
    ContainerHeaderPackage.to_buffer_store_entry e p ⟨mem, pos⟩ base curr =
      (writeFixed e p 0 ⟨mem, pos⟩, curr) := by
  unfold ContainerHeaderPackage.to_buffer_store_entry writeFixed
  simp only [hn, List.length_nil, gt_iff_lt, lt_self_iff_false, if_false]

theorem store_entry_eq_nonempty (e : Endian) (p : ContainerHeaderPackage) (mem : Nat → Nat)
    (pos base curr relv : Nat) (hn : 0 < p.import_ids.length)
    (hrel : relv = (base + curr - (pos + 0x18)) % 2 ^ 32) :
    ContainerHeaderPackage.to_buffer_store_entry e p ⟨mem, pos⟩ base curr =
      (⟨(ContainerHeaderPackage.writeImports e p.import_ids
            ⟨(writeFixed e p relv ⟨mem, pos⟩).mem, pos + 0x18 + relv⟩).mem,
          pos + 0x20⟩,
        curr + 8 * p.import_ids.length) := by
  subst hrel
  unfold ContainerHeaderPackage.to_buffer_store_entry writeFixed
  simp only [gt_iff_lt, hn, if_true, writeUInt_pos]
  have h1 : pos + 8 + 4 + 4 + 4 + 4 = pos + 24 := by omega
  rw [h1]
  have h2 : pos + 24 + 4 + 4 + (base + curr - (pos + 24)) % 2 ^ 32 - 8
      = pos + 24 + (base + curr - (pos + 24)) % 2 ^ 32 := by omega
  rw [h2]

theorem uintBytes_length (e : Endian) (w v : Nat) : (uintBytes e w v).length = w := by
  unfold uintBytes
  rw [orient_length, leBytes_length]

theorem writeFixed_pos (e : Endian) (p : ContainerHeaderPackage) (relv : Nat) (s : WState) :
    (writeFixed e p relv s).pos = s.pos + 0x20 := by
  unfold writeFixed
  simp only [writeUInt_pos]

theorem writeFixed_mem_out (e : Endian) (p : ContainerHeaderPackage) (relv : Nat) (s : WState)
    (i : Nat) (h : i < s.pos ∨ s.pos + 0x20 ≤ i) : (writeFixed e p relv s).mem i = s.mem i := by
  unfold writeFixed
  rw [writeUInt_mem_out _ _ _ _ _ (by simp only [writeUInt_pos]; omega)]
  rw [writeUInt_mem_out _ _ _ _ _ (by simp only [writeUInt_pos]; omega)]
  rw [writeUInt_mem_out _ _ _ _ _ (by simp only [writeUInt_pos]; omega)]
  rw [writeUInt_mem_out _ _ _ _ _ (by simp only [writeUInt_pos]; omega)]
  rw [writeUInt_mem_out _ _ _ _ _ (by simp only [writeUInt_pos]; omega)]
  rw [writeUInt_mem_out _ _ _ _ _ (by simp only [writeUInt_pos]; omega)]
  rw [writeUInt_mem_out _ _ _ _ _ (by omega)]

theorem writeFixed_field0 (e : Endian) (p : ContainerHeaderPackage) (relv : Nat)
    (mem : Nat → Nat) (pos : Nat) :
    readUIntAt e (writeFixed e p relv ⟨mem, pos⟩).mem pos 8 = p.export_bundle_size % 2 ^ 64 := by
  unfold writeFixed
  rw [readUIntAt_congr e _ (writeUInt e 8 p.export_bundle_size ⟨mem, pos⟩).mem pos 8
      (fun i h1 h2 => by
        rw [writeUInt_mem_lt _ _ _ _ _ (by simp only [writeUInt_pos]; omega)]
        rw [writeUInt_mem_lt _ _ _ _ _ (by simp only [writeUInt_pos]; omega)]
        rw [writeUInt_mem_lt _ _ _ _ _ (by simp only [writeUInt_pos]; omega)]
        rw [writeUInt_mem_lt _ _ _ _ _ (by simp only [writeUInt_pos]; omega)]
        rw [writeUInt_mem_lt _ _ _ _ _ (by simp only [writeUInt_pos]; omega)]
        rw [writeUInt_mem_lt _ _ _ _ _ (by simp only [writeUInt_pos]; omega)])]
  rw [readUIntAt_writeUInt_at e 8 _ _ pos rfl]
  norm_num

theorem writeFixed_field1 (e : Endian) (p : ContainerHeaderPackage) (relv : Nat)
    (mem : Nat → Nat) (pos : Nat) :
    readUIntAt e (writeFixed e p relv ⟨mem, pos⟩).mem (pos + 0x8) 4 =
      p.export_count % 2 ^ 32 := by
  unfold writeFixed
  rw [readUIntAt_congr e _
      (writeUInt e 4 p.export_count (writeUInt e 8 p.export_bundle_size ⟨mem, pos⟩)).mem
      (pos + 0x8) 4
      (fun i h1 h2 => by
        rw [writeUInt_mem_lt _ _ _ _ _ (by simp only [writeUInt_pos]; omega)]
        rw [writeUInt_mem_lt _ _ _ _ _ (by simp only [writeUInt_pos]; omega)]
        rw [writeUInt_mem_lt _ _ _ _ _ (by simp only [writeUInt_pos]; omega)]
        rw [writeUInt_mem_lt _ _ _ _ _ (by simp only [writeUInt_pos]; omega)]
        rw [writeUInt_mem_lt _ _ _ _ _ (by simp only [writeUInt_pos]; omega)])]
  rw [readUIntAt_writeUInt_at e 4 _ _ (pos + 0x8) (by simp only [writeUInt_pos])]
  norm_num

theorem writeFixed_field2 (e : Endian) (p : ContainerHeaderPackage) (relv : Nat)
    (mem : Nat → Nat) (pos : Nat) :
    readUIntAt e (writeFixed e p relv ⟨mem, pos⟩).mem (pos + 0xc) 4 = 1 := by
  unfold writeFixed
  rw [readUIntAt_congr e _
      (writeUInt e 4 1 (writeUInt e 4 p.export_count
        (writeUInt e 8 p.export_bundle_size ⟨mem, pos⟩))).mem
      (pos + 0xc) 4
      (fun i h1 h2 => by
        rw [writeUInt_mem_lt _ _ _ _ _ (by simp only [writeUInt_pos]; omega)]
        rw [writeUInt_mem_lt _ _ _ _ _ (by simp only [writeUInt_pos]; omega)]
        rw [writeUInt_mem_lt _ _ _ _ _ (by simp only [writeUInt_pos]; omega)]
        rw [writeUInt_mem_lt _ _ _ _ _ (by simp only [writeUInt_pos]; omega)])]
  rw [readUIntAt_writeUInt_at e 4 _ _ (pos + 0xc) (by simp only [writeUInt_pos])]
  norm_num

theorem writeFixed_field3 (e : Endian) (p : ContainerHeaderPackage) (relv : Nat)
    (mem : Nat → Nat) (pos : Nat) :
    readUIntAt e (writeFixed e p relv ⟨mem, pos⟩).mem (pos + 0x10) 4 =
      p.load_order % 2 ^ 32 := by
  unfold writeFixed
  rw [readUIntAt_congr e _
      (writeUInt e 4 p.load_order (writeUInt e 4 1 (writeUInt e 4 p.export_count
        (writeUInt e 8 p.export_bundle_size ⟨mem, pos⟩)))).mem
      (pos + 0x10) 4
      (fun i h1 h2 => by
        rw [writeUInt_mem_lt _ _ _ _ _ (by simp only [writeUInt_pos]; omega)]
        rw [writeUInt_mem_lt _ _ _ _ _ (by simp only [writeUInt_pos]; omega)]
        rw [writeUInt_mem_lt _ _ _ _ _ (by simp only [writeUInt_pos]; omega)])]
  rw [readUIntAt_writeUInt_at e 4 _ _ (pos + 0x10) (by simp only [writeUInt_pos])]
  norm_num

theorem writeFixed_field4 (e : Endian) (p : ContainerHeaderPackage) (relv : Nat)
    (mem : Nat → Nat) (pos : Nat) :
    readUIntAt e (writeFixed e p relv ⟨mem, pos⟩).mem (pos + 0x14) 4 = 0 := by
  unfold writeFixed
  rw [readUIntAt_congr e _
      (writeUInt e 4 0 (writeUInt e 4 p.load_order (writeUInt e 4 1
        (writeUInt e 4 p.export_count (writeUInt e 8 p.export_bundle_size ⟨mem, pos⟩))))).mem
      (pos + 0x14) 4
      (fun i h1 h2 => by
        rw [writeUInt_mem_lt _ _ _ _ _ (by simp only [writeUInt_pos]; omega)]
        rw [writeUInt_mem_lt _ _ _ _ _ (by simp only [writeUInt_pos]; omega)])]
  rw [readUIntAt_writeUInt_at e 4 _ _ (pos + 0x14) (by simp only [writeUInt_pos])]
  norm_num

theorem writeFixed_field5 (e : Endian) (p : ContainerHeaderPackage) (relv : Nat)
    (mem : Nat → Nat) (pos : Nat) :
    readUIntAt e (writeFixed e p relv ⟨mem, pos⟩).mem (pos + 0x18) 4 =
      p.import_ids.length % 2 ^ 32 := by
  unfold writeFixed
  rw [readUIntAt_congr e _
      (writeUInt e 4 p.import_ids.length (writeUInt e 4 0 (writeUInt e 4 p.load_order
        (writeUInt e 4 1 (writeUInt e 4 p.export_count
          (writeUInt e 8 p.export_bundle_size ⟨mem, pos⟩)))))).mem
      (pos + 0x18) 4
      (fun i h1 h2 => by
        rw [writeUInt_mem_lt _ _ _ _ _ (by simp only [writeUInt_pos]; omega)])]
  rw [readUIntAt_writeUInt_at e 4 _ _ (pos + 0x18) (by simp only [writeUInt_pos])]
  norm_num

theorem writeFixed_field6 (e : Endian) (p : ContainerHeaderPackage) (relv : Nat)
    (mem : Nat → Nat) (pos : Nat) :
    readUIntAt e (writeFixed e p relv ⟨mem, pos⟩).mem (pos + 0x1c) 4 = relv % 2 ^ 32 := by
  unfold writeFixed
  rw [readUIntAt_writeUInt_at e 4 _ _ (pos + 0x1c) (by simp only [writeUInt_pos])]
  norm_num

theorem store_entry_empty_spec (e : Endian) (p : ContainerHeaderPackage) (mem : Nat → Nat)
    (pos base curr : Nat) (out : WState × Nat) (hwf : p.WF) (hn : p.import_ids = [])
    (hout : ContainerHeaderPackage.to_buffer_store_entry e p ⟨mem, pos⟩ base curr = out) :
    out.1.pos = pos + 0x20 ∧
    out.2 = curr ∧
    readUIntAt e out.1.mem pos 8 = p.export_bundle_size ∧
    readUIntAt e out.1.mem (pos + 0x8) 4 = p.export_count ∧
    readUIntAt e out.1.mem (pos + 0xc) 4 = 1 ∧
    readUIntAt e out.1.mem (pos + 0x10) 4 = p.load_order ∧
    readUIntAt e out.1.mem (pos + 0x14) 4 = 0 ∧
    readUIntAt e out.1.mem (pos + 0x18) 4 = p.import_ids.length ∧
    readUIntAt e out.1.mem (pos + 0x1c) 4 = 0 ∧
    (∀ i, i < pos ∨ pos + 0x20 ≤ i → out.1.mem i = mem i) := by
  rw [store_entry_eq_empty e p mem pos base curr hn] at hout
  subst hout
  refine ⟨writeFixed_pos e p 0 ⟨mem, pos⟩, rfl, ?_, ?_, ?_, ?_, ?_, ?_, ?_, ?_⟩
  · rw [writeFixed_field0]
    exact Nat.mod_eq_of_lt hwf.1
  · rw [writeFixed_field1]
    exact Nat.mod_eq_of_lt hwf.2.1
  · exact writeFixed_field2 e p 0 mem pos
  · rw [writeFixed_field3]
    exact Nat.mod_eq_of_lt hwf.2.2.1
  · exact writeFixed_field4 e p 0 mem pos
  · rw [writeFixed_field5]
    exact Nat.mod_eq_of_lt hwf.2.2.2.1
  · rw [writeFixed_field6]
    norm_num
  · exact fun i hi => writeFixed_mem_out e p 0 ⟨mem, pos⟩ i hi

theorem readU64ListAt_pos_congr (e : Endian) (mem : Nat → Nat) (p q n : Nat) (h : p = q) :
    readU64ListAt e mem p n = readU64ListAt e mem q n := by
  rw [h]

theorem store_entry_nonempty_spec (e : Endian) (p : ContainerHeaderPackage) (mem : Nat → Nat)
    (pos base curr : Nat) (out : WState × Nat) (hwf : p.WF) (hn : p.import_ids ≠ [])
    (hdisj : pos + 0x20 ≤ base + curr) (hfit : base + curr - (pos + 0x18) < 2 ^ 32)
    (hout : ContainerHeaderPackage.to_buffer_store_entry e p ⟨mem, pos⟩ base curr = out) :
    out.1.pos = pos + 0x20 ∧
    out.2 = curr + 8 * p.import_ids.length ∧
    readUIntAt e out.1.mem pos 8 = p.export_bundle_size ∧
    readUIntAt e out.1.mem (pos + 0x8) 4 = p.export_count ∧
    readUIntAt e out.1.mem (pos + 0xc) 4 = 1 ∧
    readUIntAt e out.1.mem (pos + 0x10) 4 = p.load_order ∧
    readUIntAt e out.1.mem (pos + 0x14) 4 = 0 ∧
    readUIntAt e out.1.mem (pos + 0x18) 4 = p.import_ids.length ∧
    readUIntAt e out.1.mem (pos + 0x1c) 4 = base + curr - (pos + 0x18) ∧
    readU64ListAt e out.1.mem (base + curr) p.import_ids.length = p.import_ids := by
  have hlen : 0 < p.import_ids.length := List.length_pos.mpr hn
  rw [store_entry_eq_nonempty e p mem pos base curr _ hlen rfl] at hout
  subst hout
  have hrel_eq : (base + curr - (pos + 0x18)) % 2 ^ 32 = base + curr - (pos + 0x18) :=
    Nat.mod_eq_of_lt hfit
  have hseek : pos + 0x18 + (base + curr - (pos + 0x18)) % 2 ^ 32 = base + curr := by
    rw [hrel_eq]; omega
  have agree : ∀ i, pos ≤ i → i < pos + 0x20 →
      (ContainerHeaderPackage.writeImports e p.import_ids
          ⟨(writeFixed e p ((base + curr - (pos + 0x18)) % 2 ^ 32) ⟨mem, pos⟩).mem,
            pos + 0x18 + (base + curr - (pos + 0x18)) % 2 ^ 32⟩).mem i =
        (writeFixed e p ((base + curr - (pos + 0x18)) % 2 ^ 32) ⟨mem, pos⟩).mem i := by
    intro i h1 h2
    exact writeImports_mem_out e _ _ i (Or.inl (by simp only []; omega))
  refine ⟨rfl, rfl, ?_, ?_, ?_, ?_, ?_, ?_, ?_, ?_⟩
  · rw [readUIntAt_congr e _ _ pos 8 (fun i h1 h2 => agree i (by omega) (by omega)),
      writeFixed_field0]
    exact Nat.mod_eq_of_lt hwf.1
  · rw [readUIntAt_congr e _ _ (pos + 0x8) 4 (fun i h1 h2 => agree i (by omega) (by omega)),
      writeFixed_field1]
    exact Nat.mod_eq_of_lt hwf.2.1
  · rw [readUIntAt_congr e _ _ (pos + 0xc) 4 (fun i h1 h2 => agree i (by omega) (by omega)),
      writeFixed_field2]
  · rw [readUIntAt_congr e _ _ (pos + 0x10) 4 (fun i h1 h2 => agree i (by omega) (by omega)),
      writeFixed_field3]
    exact Nat.mod_eq_of_lt hwf.2.2.1
  · rw [readUIntAt_congr e _ _ (pos + 0x14) 4 (fun i h1 h2 => agree i (by omega) (by omega)),
      writeFixed_field4]
  · rw [readUIntAt_congr e _ _ (pos + 0x18) 4 (fun i h1 h2 => agree i (by omega) (by omega)),
      writeFixed_field5]
    exact Nat.mod_eq_of_lt hwf.2.2.2.1
  · rw [readUIntAt_congr e _ _ (pos + 0x1c) 4 (fun i h1 h2 => agree i (by omega) (by omega)),
      writeFixed_field6]
    rw [Nat.mod_mod_of_dvd _ (dvd_refl _), hrel_eq]
  · simp only []
    rw [readU64ListAt_pos_congr e _ (base + curr)
        (pos + 0x18 + (base + curr - (pos + 0x18)) % 2 ^ 32) p.import_ids.length hseek.symm]
    exact readU64ListAt_writeImports e p.import_ids
      ⟨(writeFixed e p ((base + curr - (pos + 0x18)) % 2 ^ 32) ⟨mem, pos⟩).mem,
        pos + 0x18 + (base + curr - (pos + 0x18)) % 2 ^ 32⟩ hwf.2.2.2.2

/-! ## Claim theorems -/

/-- C1: serializing a `ContainerHeaderPackage` via `to_buffer_store_entry` writes a
fixed `0x20`-byte record whose fields appear in order: 64-bit
`exportBundleByteSize` at `0x0`, 32-bit `exportCount` at `0x8`, a 32-bit
bundle-count field at `0xc` that is always written as the literal `1` (the
quantification over `p` covers every derived `export_bundle_count`), 32-bit
`loadOrder` at `0x10`, 32-bit zero padding at `0x14`, 32-bit
`importedPackageCount` at `0x18`, 32-bit `relativeOffsetToImports` at `0x1c`;
and every package built by either construction path (`from_package_summary`
or `from_header_package`) has `loadOrder = 0`. -/
theorem C1_store_entry_layout (e : Endian) (p : ContainerHeaderPackage) (mem : Nat → Nat)
    (pos base curr : Nat) (out : WState × Nat) (hwf : p.WF)
    (hdisj : pos + 0x20 ≤ base + curr) (hfit : base + curr - (pos + 0x18) < 2 ^ 32)
    (hout : ContainerHeaderPackage.to_buffer_store_entry e p ⟨mem, pos⟩ base curr = out) :
    (out.1.pos = pos + 0x20 ∧
      readUIntAt e out.1.mem pos 8 = p.export_bundle_size ∧
      readUIntAt e out.1.mem (pos + 0x8) 4 = p.export_count ∧
      readUIntAt e out.1.mem (pos + 0xc) 4 = 1 ∧
      readUIntAt e out.1.mem (pos + 0x10) 4 = p.load_order ∧
      readUIntAt e out.1.mem (pos + 0x14) 4 = 0 ∧
      readUIntAt e out.1.mem (pos + 0x18) 4 = p.import_ids.length) ∧
    (∀ sv tbo native r h s chp,
      ContainerHeaderPackage.from_package_summary sv tbo native r h s = some chp →
        chp.load_order = 0) ∧
    (∀ e2 r h s, (ContainerHeaderPackage.from_header_package e2 r h s).load_order = 0) := by
  refine ⟨?_, ?_, ?_⟩
  · rcases Decidable.em (p.import_ids = []) with hn | hn
    · obtain ⟨h1, _, h3, h4, h5, h6, h7, h8, _, _⟩ :=
        store_entry_empty_spec e p mem pos base curr out hwf hn hout
      exact ⟨h1, h3, h4, h5, h6, h7, h8⟩
    · obtain ⟨h1, _, h3, h4, h5, h6, h7, h8, _, _⟩ :=
        store_entry_nonempty_spec e p mem pos base curr out hwf hn hdisj hfit hout
      exact ⟨h1, h3, h4, h5, h6, h7, h8⟩
  · intro sv tbo native r h s chp hsome
    simp only [ContainerHeaderPackage.from_package_summary] at hsome
    split at hsome
    · exact absurd hsome (by simp)
    · cases hsome
      rfl
  · intro e2 r h s
    rfl

/-- C1 witness: concrete instantiation of the layout theorem (the
bundle-count field of the serialized record is the literal `1`) and of the
`loadOrder = 0` fact for the shallow construction path. -/
theorem C1_store_entry_layout_witness :
    readUIntAt .little
        (ContainerHeaderPackage.to_buffer_store_entry .little ⟨0, 0, 0, 0, 0, []⟩
          ⟨fun _ => 0, 0⟩ 0x20 0).1.mem (0 + 0xc) 4 = 1 ∧
    (ContainerHeaderPackage.from_header_package .little ⟨fun _ => 0, 0⟩ 0 0).load_order = 0 :=
  ⟨(C1_store_entry_layout .little ⟨0, 0, 0, 0, 0, []⟩ (fun _ => 0) 0 0x20 0 _
      (by decide) (by decide) (by decide) rfl).1.2.2.2.1,
    (C1_store_entry_layout .little ⟨0, 0, 0, 0, 0, []⟩ (fun _ => 0) 0 0x20 0 _
      (by decide) (by decide) (by decide) rfl).2.2 .little ⟨fun _ => 0, 0⟩ 0 0⟩

/-- C2: with an empty import list, `to_buffer_store_entry` writes exactly the
`0x20` fixed bytes with `relativeOffsetToImports = 0`, performs no
variable-region write (all other memory is untouched) and leaves the running
cursor unchanged; with a non-empty list it writes
`relativeOffsetToImports = (base + curr) - (pos + 0x18)` (the position of the
`0x18` field), writes the hashes at `base + curr`, returns the stream to just
after the fixed record, advances the cursor by `8 * n`, and reading the
header fields then following the relative offset from the `0x18` field
reconstructs the hash list exactly. -/
theorem C2_store_entry_roundtrip (e : Endian) (p : ContainerHeaderPackage) (mem : Nat → Nat)
    (pos base curr : Nat) (out : WState × Nat) (hwf : p.WF)
    (hout : ContainerHeaderPackage.to_buffer_store_entry e p ⟨mem, pos⟩ base curr = out) :
    (p.import_ids = [] →
      out.1.pos = pos + 0x20 ∧ out.2 = curr ∧
      readUIntAt e out.1.mem (pos + 0x1c) 4 = 0 ∧
      ∀ i, i < pos ∨ pos + 0x20 ≤ i → out.1.mem i = mem i) ∧
    (p.import_ids ≠ [] → pos + 0x20 ≤ base + curr → base + curr - (pos + 0x18) < 2 ^ 32 →
      readUIntAt e out.1.mem (pos + 0x1c) 4 = base + curr - (pos + 0x18) ∧
      readU64ListAt e out.1.mem (base + curr) p.import_ids.length = p.import_ids ∧
      out.1.pos = pos + 0x20 ∧
      out.2 = curr + 8 * p.import_ids.length ∧
      readU64ListAt e out.1.mem (pos + 0x18 + readUIntAt e out.1.mem (pos + 0x1c) 4)
        (readUIntAt e out.1.mem (pos + 0x18) 4) = p.import_ids) := by
  constructor
  · intro hn
    obtain ⟨h1, h2, _, _, _, _, _, _, h9, h10⟩ :=
      store_entry_empty_spec e p mem pos base curr out hwf hn hout
    exact ⟨h1, h2, h9, h10⟩
  · intro hn hdisj hfit
    obtain ⟨h1, h2, _, _, _, _, _, h8, h9, h10⟩ :=
      store_entry_nonempty_spec e p mem pos base curr out hwf hn hdisj hfit hout
    refine ⟨h9, h10, h1, h2, ?_⟩
    rw [h8, h9]
    rw [readU64ListAt_pos_congr e _ (pos + 0x18 + (base + curr - (pos + 0x18))) (base + curr)
      p.import_ids.length (by omega)]
    exact h10

/-- C2 witness: serializing a package with imports `[1, 2, 3]` at `pos = 0`
with variable region at `0x100` and then following the stored relative
offset reads back `[1, 2, 3]`. -/
theorem C2_store_entry_roundtrip_witness :
    readU64ListAt .little
        (ContainerHeaderPackage.to_buffer_store_entry .little ⟨0, 0, 0, 0, 0, [1, 2, 3]⟩
          ⟨fun _ => 0, 0⟩ 0x100 0).1.mem (0x100 + 0) (List.length [1, 2, 3]) = [1, 2, 3] :=
  ((C2_store_entry_roundtrip .little ⟨0, 0, 0, 0, 0, [1, 2, 3]⟩ (fun _ => 0) 0 0x100 0 _
      (by decide) rfl).2 (by decide) (by decide) (by decide)).2.1

/-- C3: the encoder writes `0xFFFFFFFFFFFFFFFF` for `Empty`, but the decoder
does *not* return `Empty` for that raw value: its tag comparison
`raw & (3 << 62)` is matched unshifted against `0..3`, so the sentinel falls
through to the `panic!` arm (modelled as `none`).  The unreachable
`ScriptImport`/`PackageImport`/`Empty` match arms show the intended
(spec) behavior; the code is the slip. -/
theorem C3_empty_sentinel_code_behavior :
    IoStoreObjectIndex.to_buffer .Empty = 0xFFFFFFFFFFFFFFFF ∧
    IoStoreObjectIndex.from_buffer_raw 0xFFFFFFFFFFFFFFFF = none := by
  decide

theorem lor_shiftLeft_and_tag (a t : Nat) (h : a < 2 ^ 62) (ht : t < 4) :
    (a ||| t <<< 62) &&& (3 <<< 62) = t <<< 62 := by
  apply Nat.eq_of_testBit_eq
  intro i
  simp only [Nat.testBit_and, Nat.testBit_or, Nat.testBit_shiftLeft]
  by_cases hi : 62 ≤ i
  · have ha : a.testBit i = false :=
      Nat.testBit_lt_two_pow (lt_of_lt_of_le h (Nat.pow_le_pow_right (by omega) hi))
    by_cases h2 : i - 62 < 2
    · have h3 : (3 : Nat).testBit (i - 62) = true := by
        have h4 : i - 62 = 0 ∨ i - 62 = 1 := by omega
        rcases h4 with h4 | h4 <;> rw [h4] <;> decide
      simp [hi, ha, h3]
    · have hpow : (2 : Nat) ^ 2 ≤ 2 ^ (i - 62) :=
        Nat.pow_le_pow_right (by omega) (by omega)
      have h3 : (3 : Nat).testBit (i - 62) = false :=
        Nat.testBit_lt_two_pow (lt_of_lt_of_le (by decide) hpow)
      have h4 : t.testBit (i - 62) = false :=
        Nat.testBit_lt_two_pow (lt_of_lt_of_le (lt_of_lt_of_le ht (by decide)) hpow)
      simp [hi, ha, h3, h4]
  · simp [hi]

theorem from_buffer_raw_none_of_tag_ne (x : Nat) (hne : x &&& (3 <<< 62) ≠ 0) :
    IoStoreObjectIndex.from_buffer_raw x = none := by
  have hmod := and_tag_mask_mod x
  rw [show (3 : Nat) <<< 62 = 13835058055282163712 by decide] at hne hmod
  have h1 : x &&& 13835058055282163712 ≠ 1 := fun h => by
    rw [h, Nat.mod_eq_of_lt (by norm_num)] at hmod
    exact one_ne_zero hmod
  have h2 : x &&& 13835058055282163712 ≠ 2 := fun h => by
    rw [h, Nat.mod_eq_of_lt (by norm_num)] at hmod
    exact two_ne_zero hmod
  have h3 : x &&& 13835058055282163712 ≠ 3 := fun h => by
    rw [h, Nat.mod_eq_of_lt (by norm_num)] at hmod
    exact three_ne_zero hmod
  simp [IoStoreObjectIndex.from_buffer_raw, hne, h1, h2, h3]

theorem generate_hash_and_tag (v : String) (t : Nat) (ht : t < 4) :
    IoStoreObjectIndex.generate_hash v t &&& (3 <<< 62) = t <<< 62 := by
  have ha : CityHash.cityHash64 (utf16leBytes (lowerStr v)) &&& (2 ^ 62 - 1) < 2 ^ 62 := by
    rw [Nat.and_pow_two_sub_one_eq_mod]
    exact Nat.mod_lt _ (by norm_num)
  exact lor_shiftLeft_and_tag _ t ha ht

/-- C10: `from_buffer` compares the masked-but-unshifted tag
`raw & (3 << 62)` against the literals `0..3`; hence every raw value whose
top two bits are not both zero — the all-ones `Empty` sentinel and every
hash-tagged `ScriptImport`/`PackageImport` encoding included — falls through
to the `panic!` arm (`none`), and only top-bits-zero values decode, always as
`Export(0)`. -/
theorem C10_from_buffer_panics (raw : Nat) (hraw : raw < 2 ^ 64) :
    (raw &&& (3 <<< 62) = 0 →
      IoStoreObjectIndex.from_buffer_raw raw = some (.Export 0)) ∧
    (raw &&& (3 <<< 62) ≠ 0 → IoStoreObjectIndex.from_buffer_raw raw = none) ∧
    IoStoreObjectIndex.from_buffer_raw 0xFFFFFFFFFFFFFFFF = none ∧
    (∀ v : String,
      IoStoreObjectIndex.from_buffer_raw (IoStoreObjectIndex.to_buffer (.ScriptImport v)) =
        none ∧
      IoStoreObjectIndex.from_buffer_raw (IoStoreObjectIndex.to_buffer (.PackageImport v)) =
        none) := by
  refine ⟨?_, from_buffer_raw_none_of_tag_ne raw, by decide, ?_⟩
  · intro h0
    rw [show (3 : Nat) <<< 62 = 13835058055282163712 by decide] at h0
    simp [IoStoreObjectIndex.from_buffer_raw, h0]
  · intro v
    constructor
    · apply from_buffer_raw_none_of_tag_ne
      rw [show IoStoreObjectIndex.to_buffer (.ScriptImport v) =
          IoStoreObjectIndex.generate_hash v 1 from rfl]
      rw [generate_hash_and_tag v 1 (by norm_num)]
      decide
    · apply from_buffer_raw_none_of_tag_ne
      rw [show IoStoreObjectIndex.to_buffer (.PackageImport v) =
          IoStoreObjectIndex.generate_hash v 2 from rfl]
      rw [generate_hash_and_tag v 2 (by norm_num)]
      decide

/-- C10 witness: the sentinel raw value falls through to the panic arm, and a
top-bits-zero raw value decodes as `Export(0)`. -/
theorem C10_from_buffer_panics_witness :
    IoStoreObjectIndex.from_buffer_raw 0xFFFFFFFFFFFFFFFF = none ∧
    IoStoreObjectIndex.from_buffer_raw 7 = some (.Export 0) :=
  ⟨(C10_from_buffer_panics 0xFFFFFFFFFFFFFFFF (by norm_num)).2.2.1,
    (C10_from_buffer_panics 7 (by norm_num)).1 (by decide)⟩

/-- Declared tag of each `IoStoreObjectIndex` variant. -/
def tagOf : IoStoreObjectIndex → Nat
  | .Export _ => 0
  | .ScriptImport _ => 1
  | .PackageImport _ => 2
  | .Empty => 3

/-- Low-62-bit payload as the spec words it: the index for `ExportRef`, the
masked CityHash64 of the lowercased UTF-16 path for the import variants,
and all-ones for `Empty`. -/
def low62Spec : IoStoreObjectIndex → Nat
  | .Export i => i
  | .ScriptImport v => CityHash.cityHash64 (utf16leBytes (lowerStr v)) &&& (2 ^ 62 - 1)
  | .PackageImport v => CityHash.cityHash64 (utf16leBytes (lowerStr v)) &&& (2 ^ 62 - 1)
  | .Empty => 2 ^ 62 - 1

/-- C7: for every reference the encoder produces — `Export i` with
`i < 2^62`, `ScriptImport`, `PackageImport`, or `Empty` — the top 2 bits of
the written 64-bit value equal the variant's tag (0, 1, 2, 3) and the low 62
bits equal the masked hash of the lowercased UTF-16 path (the index for
`Export`). -/
theorem C7_tag_law (r : IoStoreObjectIndex) (hexp : ∀ i, r = .Export i → i < 2 ^ 62) :
    r.to_buffer >>> 62 = tagOf r ∧ r.to_buffer &&& (2 ^ 62 - 1) = low62Spec r := by
  cases r with
  | Export i =>
    have hi := hexp i rfl
    constructor
    · show i >>> 62 = 0
      rw [Nat.shiftRight_eq_div_pow]
      exact Nat.div_eq_of_lt hi
    · exact Nat.and_pow_two_sub_one_of_lt_two_pow hi
  | ScriptImport v =>
    have ha : CityHash.cityHash64 (utf16leBytes (lowerStr v)) &&& (2 ^ 62 - 1) < 2 ^ 62 := by
      rw [Nat.and_pow_two_sub_one_eq_mod]
      exact Nat.mod_lt _ (by norm_num)
    exact ⟨lor_shiftLeft_hi _ _ ha, lor_shiftLeft_lo _ _ ha⟩
  | PackageImport v =>
    have ha : CityHash.cityHash64 (utf16leBytes (lowerStr v)) &&& (2 ^ 62 - 1) < 2 ^ 62 := by
      rw [Nat.and_pow_two_sub_one_eq_mod]
      exact Nat.mod_lt _ (by norm_num)
    exact ⟨lor_shiftLeft_hi _ _ ha, lor_shiftLeft_lo _ _ ha⟩
  | Empty => exact ⟨by decide, by decide⟩

/-- C7 witness: the tag law at the concrete reference `Export 5`. -/
theorem C7_tag_law_witness :
    IoStoreObjectIndex.to_buffer (.Export 5) >>> 62 = tagOf (.Export 5) ∧
    IoStoreObjectIndex.to_buffer (.Export 5) &&& (2 ^ 62 - 1) = low62Spec (.Export 5) :=
  C7_tag_law (.Export 5) (fun i h => by cases h; decide)

/-- C4: the full construction path derives the export count as
`(exportBundleOffset - exportTableOffset) / 0x48`, with `0x48` the fixed
per-export record size; when the gap is an exact multiple `k * 0x48` the
derived count is exactly `k`. -/
theorem C4_export_count_derivation (eo ebo g k : Nat) (hlt : ebo < 2 ^ 32) (hle : eo ≤ ebo) :
    IO_PACKAGE_FEXPORTMAP_SERIALIZED_SIZE = 0x48 ∧
    PackageSummaryExports.get_export_count ⟨eo, ebo, g⟩ = (ebo - eo) / 0x48 ∧
    (ebo = eo + k * 0x48 → PackageSummaryExports.get_export_count ⟨eo, ebo, g⟩ = k) := by
  refine ⟨rfl, ?_, ?_⟩
  · unfold PackageSummaryExports.get_export_count IO_PACKAGE_FEXPORTMAP_SERIALIZED_SIZE
    simp only []
    congr 1
    omega
  · intro hk
    unfold PackageSummaryExports.get_export_count IO_PACKAGE_FEXPORTMAP_SERIALIZED_SIZE
    simp only []
    have h1 : (ebo + 2 ^ 32 - eo) % 2 ^ 32 = k * 0x48 := by omega
    rw [h1]
    exact Nat.mul_div_cancel k (by norm_num)

/-- C4 witness: `exportTableOffset = 0x100`, `exportBundleOffset =
0x100 + 5 * 0x48` gives derived export count 5. -/
theorem C4_export_count_derivation_witness :
    PackageSummaryExports.get_export_count ⟨0x100, 0x100 + 5 * 0x48, 0⟩ = 5 :=
  (C4_export_count_derivation 0x100 (0x100 + 5 * 0x48) 0 5 (by decide) (by decide)).2.2 rfl

theorem bundle_count_foldl (entries : List ExportBundleEntry) (c : Nat)
    (hb : ∀ x ∈ entries, x.local_export_index + 1 < 2 ^ 32) :
    entries.foldl
        (fun count i =>
          let export_count_maybe := (i.local_export_index + 1) % 2 ^ 32
          if export_count_maybe > count then export_count_maybe else count) c =
      entries.foldl (fun count i => max count (i.local_export_index + 1)) c := by
  induction entries generalizing c with
  | nil => rfl
  | cons x t ih =>
    simp only [List.foldl_cons]
    rw [ih _ (fun y hy => hb y (by simp [hy]))]
    congr 1
    rw [Nat.mod_eq_of_lt (hb x (by simp))]
    rcases Nat.lt_or_ge c (x.local_export_index + 1) with h | h
    · rw [if_pos h, Nat.max_eq_right (Nat.le_of_lt h)]
    · rw [if_neg (by omega), Nat.max_eq_left h]

theorem foldl_max_succ (entries : List ExportBundleEntry) (a : Nat) :
    entries.foldl (fun count i => max count (i.local_export_index + 1)) (a + 1) =
      entries.foldl (fun count i => max count i.local_export_index) a + 1 := by
  induction entries generalizing a with
  | nil => rfl
  | cons x t ih =>
    simp only [List.foldl_cons, Nat.succ_max_succ]
    exact ih (max a x.local_export_index)

/-- C5: the derived export bundle count is `0` for an empty entry list and
otherwise `1 +` the maximum `localExportIndex` over all entries; local
indices `[0, 2, 1, 2]` give count `3`, which differs from the entry count
`4`. -/
theorem C5_bundle_count_law :
    ExportBundleHeader4.get_export_bundle_count [] = 0 ∧
    (∀ entries : List ExportBundleEntry, entries ≠ [] →
      (∀ x ∈ entries, x.local_export_index + 1 < 2 ^ 32) →
      ExportBundleHeader4.get_export_bundle_count entries =
        1 + entries.foldl (fun m x => max m x.local_export_index) 0) ∧
    ExportBundleHeader4.get_export_bundle_count
      [⟨0, .Create⟩, ⟨2, .Create⟩, ⟨1, .Create⟩, ⟨2, .Create⟩] = 3 ∧
    ExportBundleHeader4.get_export_bundle_count
        [⟨0, .Create⟩, ⟨2, .Create⟩, ⟨1, .Create⟩, ⟨2, .Create⟩] ≠
      ([⟨0, .Create⟩, ⟨2, .Create⟩, ⟨1, .Create⟩, ⟨2, .Create⟩] :
        List ExportBundleEntry).length := by
  refine ⟨rfl, ?_, by decide, by decide⟩
  intro entries hne hb
  unfold ExportBundleHeader4.get_export_bundle_count
  rw [bundle_count_foldl entries 0 hb]
  cases entries with
  | nil => exact absurd rfl hne
  | cons x t =>
    simp only [List.foldl_cons, Nat.zero_max]
    rw [foldl_max_succ t x.local_export_index]
    omega

/-- C5 witness: the bundle-count law applied to the concrete entry list with
local indices `[0, 2, 1, 2]`. -/
theorem C5_bundle_count_law_witness :
    ExportBundleHeader4.get_export_bundle_count
        [⟨0, .Create⟩, ⟨2, .Create⟩, ⟨1, .Create⟩, ⟨2, .Create⟩] =
      1 + ([⟨0, .Create⟩, ⟨2, .Create⟩, ⟨1, .Create⟩, ⟨2, .Create⟩] :
          List ExportBundleEntry).foldl (fun m x => max m x.local_export_index) 0 :=
  C5_bundle_count_law.2.1 _ (by decide) (by decide)

/-- C6: `ZenPackageSummaryType2` (Variant D) has no summary decoder — an
attempt to decode it never yields a `PackageSummaryExports` (in Rust the
missing trait implementation is already a compile-time rejection) — while
Variants A, B, C always decode. -/
theorem C6_variant_d_unsupported (e : Endian) (r : RState) :
    summaryDecodeAny .zen2 e r = none ∧
    (summaryDecodeAny .ps1 e r).isSome = true ∧
    (summaryDecodeAny .ps2 e r).isSome = true ∧
    (summaryDecodeAny .zen1 e r).isSome = true :=
  ⟨rfl, rfl, rfl, rfl⟩

/-- C8: from a reader at `pos`, Variant A (`PackageSummary1`) skips `0xc`
bytes, Variant B (`PackageSummary2`) skips `0x2c`, Variant C
(`ZenPackageSummaryType1`) skips `0x20`; each then reads three consecutive
32-bit values in the caller's byte order as export-table, export-bundle and
graph offsets, in that order. -/
theorem C8_summary_decoders (e : Endian) (mem : Nat → Nat) (pos : Nat) :
    PackageSummary1.to_package_summary e ⟨mem, pos⟩ =
      (⟨readUIntAt e mem (pos + 0xc) 4, readUIntAt e mem (pos + 0xc + 4) 4,
          readUIntAt e mem (pos + 0xc + 4 + 4) 4⟩,
        ⟨mem, pos + 0xc + 4 + 4 + 4⟩) ∧
    PackageSummary2.to_package_summary e ⟨mem, pos⟩ =
      (⟨readUIntAt e mem (pos + 0x2c) 4, readUIntAt e mem (pos + 0x2c + 4) 4,
          readUIntAt e mem (pos + 0x2c + 4 + 4) 4⟩,
        ⟨mem, pos + 0x2c + 4 + 4 + 4⟩) ∧
    ZenPackageSummaryType1.to_package_summary e ⟨mem, pos⟩ =
      (⟨readUIntAt e mem (pos + 0x20) 4, readUIntAt e mem (pos + 0x20 + 4) 4,
          readUIntAt e mem (pos + 0x20 + 4 + 4) 4⟩,
        ⟨mem, pos + 0x20 + 4 + 4 + 4⟩) :=
  ⟨rfl, rfl, rfl⟩

/-- Concrete header bytes for the C9 byte-order counterexample.  Read as a
Variant A summary with caller byte order big-endian: the three offsets
(positions `0xc`, `0x10`, `0x14`) decode to `0`, `0x20`, `0x30` in either
run.  At `0x24` the bundle `entry_count` bytes `[1, 0, 0, 0]` decode to `1`
under little-endian but `0x01000000` under big-endian, and the command word
at `0x2c`, bytes `[2, 0, 0, 0]`, is the valid command `2` under
little-endian but the invalid `0x02000000` under big-endian. -/
def c9Mem : Nat → Nat := fun i =>
  [0, 0, 0, 0, 0, 0, 0, 0, 0, 0, 0, 0,
   0, 0, 0, 0,
   0, 0, 0, 0x20,
   0, 0, 0, 0x30,
   0, 0, 0, 0, 0, 0, 0, 0,
   0, 0, 0, 0,
   1, 0, 0, 0,
   5, 0, 0, 0,
   2, 0, 0, 0,
   0, 0, 0, 0].getD i 0

/-- C9 counterexample: with caller byte order big-endian on a little-endian
platform, the full construction path does *not* behave like the
single-consistent-byte-order decoder the spec describes: the export bundle
and dependency graph reads use `NativeEndian` regardless of the caller's
`TByteOrder`.  On `c9Mem` the code path decodes one valid bundle entry and
returns a package, while the consistent decoder reads an invalid command
word and fails. -/
theorem C9_byte_order_counterexample :
    ContainerHeaderPackage.from_package_summary .ps1 .big .little ⟨c9Mem, 0⟩ 0 0 ≠
      ContainerHeaderPackage.from_package_summary_consistent .ps1 .big ⟨c9Mem, 0⟩ 0 0 := by
  decide

/-- C9 amended: the three summary offsets are read in the caller-specified
byte order, but the export-bundle and dependency-graph integers are read in
the platform's native byte order regardless; when the caller-specified order
equals the native order (the typical native/little-endian configuration),
the full construction path reads every integer in that one consistent
order. -/
theorem C9_consistent_when_native (sv : SummaryVariant) (e : Endian) (r : RState)
    (hash size : Nat) :
    ContainerHeaderPackage.from_package_summary sv e e r hash size =
      ContainerHeaderPackage.from_package_summary_consistent sv e r hash size := rfl
